import Mathlib

/-!
Verification of the lxe package format and runtime against its source.

The definitions below are shallow embeddings of the Rust sources:
  * `lxe-common/src/payload.rs` — payload self-location and parsing,
  * `lxe-common/src/metadata.rs` — metadata model and signing gate,
  * `src/signing.rs` — Ed25519 wrapper (decoding layers modelled, the
    curve arithmetic abstracted as a function parameter),
  * `src/bin/lxe_pack.rs` — the package builder byte layout,
  * `src/extractor.rs` — streaming extraction onto a modelled filesystem,
  * `lxe-runtime/src/installer.rs` — uninstall symlink sweep.

Bytes are modelled as `Nat` values (< 256 by construction where written),
files as `List Nat`.  SHA-256 and Ed25519 point arithmetic are abstracted
as explicit function parameters; everything byte-layout-related is
concrete and executable.
-/

namespace Lxe

/-- The 8-byte LXE magic constant `b"\x00LXE\xF0\x9F\x93\x01"`
(`lxe-common/src/metadata.rs`, `LXE_MAGIC`). -/
def LXE_MAGIC : List Nat := [0x00, 0x4C, 0x58, 0x45, 0xF0, 0x9F, 0x93, 0x01]

/-- Little-endian interpretation of a byte list (as used for the u32
metadata length and the u64 footer offset). -/
def leDecode (bs : List Nat) : Nat :=
  bs.foldr (fun b acc => b + 256 * acc) 0

/-- The four little-endian bytes of a `u32` value, as written by
`metadata_len.to_le_bytes()` in `lxe_pack.rs` (the Rust `as u32` cast
truncates, hence the `% 256` on every byte). -/
def u32le (n : Nat) : List Nat :=
  [n % 256, n / 256 % 256, n / 256 ^ 2 % 256, n / 256 ^ 3 % 256]

/-- The eight little-endian bytes of a `u64` value, as written by
`header_offset.to_le_bytes()` in `lxe_pack.rs`. -/
def u64le (n : Nat) : List Nat :=
  [n % 256, n / 256 % 256, n / 256 ^ 2 % 256, n / 256 ^ 3 % 256,
   n / 256 ^ 4 % 256, n / 256 ^ 5 % 256, n / 256 ^ 6 % 256, n / 256 ^ 7 % 256]

/-- Index of the last window of `buf` equal to `needle`; this models
`buffer.windows(len).rposition(|w| w == needle)` in `find_magic_offset`
(`lxe-common/src/payload.rs`). -/
def lastOcc (buf needle : List Nat) : Option Nat :=
  ((List.range (buf.length + 1 - needle.length)).filter
    (fun i => decide ((buf.drop i).take needle.length = needle))).getLast?

/-- The self-locator `find_magic_offset` from `lxe-common/src/payload.rs`:
footer-first (last 16 bytes = u64 LE offset then magic, with the sanity
check `offset < file_size - 16`), falling back to a scan of the first
`min(file_size, 10 MiB)` bytes for the last occurrence of the magic. -/
def findMagicOffset (file : List Nat) : Option Nat :=
  let L := file.length
  if L < 16 then none
  else
    let footer := (file.drop (L - 16)).take 16
    let offsetBytes := footer.take 8
    let magicBytes := footer.drop 8
    let fallback :=
      let scanSize := min L (10 * 1024 * 1024)
      lastOcc (file.take scanSize) LXE_MAGIC
    if magicBytes = LXE_MAGIC then
      let offset := leDecode offsetBytes
      if offset < L - 16 then some offset else fallback
    else fallback

/-- The package byte layout written by `lxe_pack.rs` step 7: runtime
bytes, magic, u32 LE metadata length, metadata JSON bytes, the 32-byte
digest, the compressed payload, then the footer (u64 LE header offset =
runtime length, magic). -/
def buildPackage (runtime metadataJson digest payload : List Nat) : List Nat :=
  runtime ++ LXE_MAGIC ++ u32le metadataJson.length ++ metadataJson ++
    digest ++ payload ++ u64le runtime.length ++ LXE_MAGIC

theorem u32le_length (n : Nat) : (u32le n).length = 4 := rfl

theorem u64le_length (n : Nat) : (u64le n).length = 8 := rfl

theorem LXE_MAGIC_length : LXE_MAGIC.length = 8 := rfl

theorem leDecode_u32le (n : Nat) (h : n < 2 ^ 32) : leDecode (u32le n) = n := by
  simp only [u32le, leDecode, List.foldr]
  omega

theorem leDecode_u64le (n : Nat) (h : n < 2 ^ 64) : leDecode (u64le n) = n := by
  simp only [u64le, leDecode, List.foldr]
  omega

theorem buildPackage_eq_concat (r mj d p : List Nat) :
    buildPackage r mj d p =
      (r ++ LXE_MAGIC ++ u32le mj.length ++ mj ++ d ++ p) ++
        (u64le r.length ++ LXE_MAGIC) := by
  simp [buildPackage, List.append_assoc]

theorem buildPackage_length (r mj d p : List Nat) :
    (buildPackage r mj d p).length =
      r.length + mj.length + d.length + p.length + 28 := by
  simp [buildPackage, u32le_length, u64le_length, LXE_MAGIC_length]
  omega

/-- If the last window of the scan buffer is the magic, the fallback scan
returns its index, the last index of the buffer's windows. -/
theorem lastOcc_last_window (file : List Nat) (h8 : 8 ≤ file.length)
    (hm : file.drop (file.length - 8) = LXE_MAGIC) :
    lastOcc file LXE_MAGIC = some (file.length - 8) := by
  have hlen : file.length + 1 - LXE_MAGIC.length = (file.length - 8) + 1 := by
    simp only [LXE_MAGIC_length]; omega
  have hdroplen : (file.drop (file.length - 8)).length = 8 := by
    rw [List.length_drop]; omega
  have hwin : (file.drop (file.length - 8)).take LXE_MAGIC.length =
      LXE_MAGIC := by
    rw [LXE_MAGIC_length, List.take_of_length_le (le_of_eq hdroplen), hm]
  unfold lastOcc
  rw [hlen, List.range_succ, List.filter_append]
  have hsingle : List.filter
      (fun i => decide ((file.drop i).take LXE_MAGIC.length = LXE_MAGIC))
      [file.length - 8] = [file.length - 8] := by
    simp [List.filter, hwin]
  rw [hsingle, List.getLast?_concat]

/-- Footer-first lookup: on any file of shape `A ++ u64le off ++ MAGIC`
with a sane offset, the locator returns `off` via the O(1) footer path. -/
theorem findMagicOffset_footer (A : List Nat) (off : Nat)
    (hoff : off < 2 ^ 64) (hlt : off < A.length) :
    findMagicOffset (A ++ (u64le off ++ LXE_MAGIC)) = some off := by
  have hTlen : (u64le off ++ LXE_MAGIC).length = 16 := by
    simp [u64le_length, LXE_MAGIC_length]
  have hL : (A ++ (u64le off ++ LXE_MAGIC)).length = A.length + 16 := by
    rw [List.length_append, hTlen]
  have hdrop : (A ++ (u64le off ++ LXE_MAGIC)).drop
      ((A ++ (u64le off ++ LXE_MAGIC)).length - 16) = u64le off ++ LXE_MAGIC := by
    rw [hL, Nat.add_sub_cancel]
    exact List.drop_left _ _
  have hfooter : ((A ++ (u64le off ++ LXE_MAGIC)).drop
      ((A ++ (u64le off ++ LXE_MAGIC)).length - 16)).take 16 =
      u64le off ++ LXE_MAGIC := by
    rw [hdrop, List.take_of_length_le (le_of_eq hTlen)]
  have htake8 : (u64le off ++ LXE_MAGIC).take 8 = u64le off := by
    have h := List.take_left (u64le off) LXE_MAGIC
    rwa [u64le_length] at h
  have hdrop8 : (u64le off ++ LXE_MAGIC).drop 8 = LXE_MAGIC := by
    have h := List.drop_left (u64le off) LXE_MAGIC
    rwa [u64le_length] at h
  simp only [findMagicOffset]
  rw [if_neg (by omega : ¬ (A ++ (u64le off ++ LXE_MAGIC)).length < 16),
    hfooter, hdrop8, if_pos rfl, htake8, leDecode_u64le off hoff, hL,
    Nat.add_sub_cancel, if_pos hlt]

theorem buildPackage_head_length (r mj d p : List Nat) :
    (r ++ LXE_MAGIC ++ u32le mj.length ++ mj ++ d ++ p).length =
      r.length + mj.length + d.length + p.length + 12 := by
  simp [u32le_length, LXE_MAGIC_length]
  omega

/-- The locator applied to a freshly built package returns the runtime
length, the offset the builder wrote into the footer. -/
theorem findMagicOffset_build (r mj d p : List Nat) (hr : r.length < 2 ^ 64) :
    findMagicOffset (buildPackage r mj d p) = some r.length := by
  rw [buildPackage_eq_concat]
  refine findMagicOffset_footer _ _ hr ?_
  rw [buildPackage_head_length]
  omega

/-- C5: for every package assembled by the builder layout (runtime bytes,
header magic, u32 LE metadata length, metadata JSON, 32-byte digest,
payload, u64 LE payload-start offset, footer magic), the self-locator
returns exactly the offset the builder wrote into the footer, namely the
length of the runtime image. -/
theorem C5_self_locator_returns_builder_offset
    (r mj d p : List Nat) (hr : r.length < 2 ^ 64) :
    findMagicOffset (buildPackage r mj d p) = some r.length :=
  findMagicOffset_build r mj d p hr

/-- Witness for C5 at a concrete package. -/
theorem C5_self_locator_returns_builder_offset_witness :
    ([0, 1].length < 2 ^ 64) ∧
      findMagicOffset (buildPackage [0, 1] [65] (List.replicate 32 0) [9]) =
        some [0, 1].length :=
  ⟨by decide,
    C5_self_locator_returns_builder_offset [0, 1] [65] (List.replicate 32 0) [9]
      (by decide)⟩

/-- C10: on any file of length L with 16 ≤ L ≤ 10 MiB whose last 8 bytes
are the magic but whose footer offset field decodes to O ≥ L − 16, the
locator falls back to the scan, finds the footer magic itself as the last
occurrence, and returns L − 8 rather than reporting no payload. -/
theorem C10_fallback_returns_footer_magic_position (file : List Nat)
    (h1 : 16 ≤ file.length) (h2 : file.length ≤ 10 * 1024 * 1024)
    (hm : file.drop (file.length - 8) = LXE_MAGIC)
    (hO : file.length - 16 ≤ leDecode ((file.drop (file.length - 16)).take 8)) :
    findMagicOffset file = some (file.length - 8) := by
  have hscan : min file.length (10 * 1024 * 1024) = file.length :=
    Nat.min_eq_left h2
  have hfoot_len : (file.drop (file.length - 16)).length = 16 := by
    rw [List.length_drop]; omega
  have hfooter : (file.drop (file.length - 16)).take 16 =
      file.drop (file.length - 16) :=
    List.take_of_length_le (le_of_eq hfoot_len)
  have hdrop8 : (file.drop (file.length - 16)).drop 8 =
      file.drop (file.length - 8) := by
    rw [List.drop_drop]
    congr 1
    omega
  simp only [findMagicOffset]
  rw [if_neg (by omega : ¬ file.length < 16), hfooter, hdrop8, hm,
    if_pos rfl, if_neg (by omega : ¬ leDecode ((file.drop (file.length - 16)).take 8) < file.length - 16),
    hscan, List.take_length]
  exact lastOcc_last_window file (by omega) hm

/-- Witness for C10 at a concrete 16-byte file of zero offset bytes
followed by the magic. -/
theorem C10_fallback_returns_footer_magic_position_witness :
    (16 ≤ ([0, 0, 0, 0, 0, 0, 0, 0] ++ LXE_MAGIC).length) ∧
      findMagicOffset ([0, 0, 0, 0, 0, 0, 0, 0] ++ LXE_MAGIC) =
        some (([0, 0, 0, 0, 0, 0, 0, 0] ++ LXE_MAGIC).length - 8) :=
  ⟨by decide,
    C10_fallback_returns_footer_magic_position ([0, 0, 0, 0, 0, 0, 0, 0] ++ LXE_MAGIC)
      (by decide) (by decide) (by decide) (by decide)⟩

/-- The metadata object of `lxe-common/src/metadata.rs` (`LxeMetadata`),
restricted to its scalar fields; the `hooks` and `installer` subtrees play
no role in the claims under verification and are omitted from the record
(they are excluded from the signable projection in the source as well). -/
structure Metadata where
  format_version : Nat
  app_id : String
  name : String
  version : String
  arch : String
  install_size : Nat
  exec : String
  icon : Option String
  categories : List String
  description : Option String
  payload_checksum : String
  min_runtime_version : Option String
  license : Option String
  homepage : Option String
  exec_args : Option String
  terminal : Bool
  wm_class : Option String
  public_key : Option String
  signature : Option String
deriving DecidableEq, Repr

/-- The signing gate `LxeMetadata::is_signed`: both `public_key` and
`signature` must be present. -/
def isSigned (m : Metadata) : Bool :=
  m.public_key.isSome && m.signature.isSome

/-- The error taxonomy surfaced by the payload reader and verifier. -/
inductive LxeError where
  | magicNotFound
  | readPastEof
  | metadataTooLarge
  | metadataParseError
  | missingPublicKey
  | missingSignature
  | invalidChecksumHex
  | invalidBase64PublicKey
  | invalidPublicKeyLength
  | invalidPublicKeyFormat
  | invalidBase64Signature
  | invalidSignatureLength
  | unauthenticPackage
deriving DecidableEq, Repr

/-- Value of one hex digit, accepting both cases as the `hex` crate does. -/
def hexVal (c : Char) : Option Nat :=
  let n := c.toNat
  if 48 ≤ n ∧ n ≤ 57 then some (n - 48)
  else if 97 ≤ n ∧ n ≤ 102 then some (n - 87)
  else if 65 ≤ n ∧ n ≤ 70 then some (n - 55)
  else none

/-- Hex decoding over a character list: pairs of digits, failing on odd
length or a non-hex character, as `hex::decode` does. -/
def hexDecodeList : List Char → Option (List Nat)
  | [] => some []
  | [_] => none
  | c1 :: c2 :: rest => do
    let h ← hexVal c1
    let l ← hexVal c2
    let tail ← hexDecodeList rest
    pure ((16 * h + l) :: tail)

/-- Model of `hex::decode` on a string. -/
def hexDecode (s : String) : Option (List Nat) :=
  hexDecodeList s.toList

/-- Lowercase hex digit of a value below 16. -/
def hexDigit (n : Nat) : Char :=
  if n < 10 then Char.ofNat (48 + n) else Char.ofNat (87 + n)

/-- Model of `hex::encode`: two lowercase digits per byte. -/
def hexEncode (bs : List Nat) : String :=
  String.mk (bs.foldr (fun b acc => hexDigit (b / 16 % 16) :: hexDigit (b % 16) :: acc) [])

/-- Value of one standard-alphabet base64 character. -/
def b64Val (c : Char) : Option Nat :=
  let n := c.toNat
  if 65 ≤ n ∧ n ≤ 90 then some (n - 65)
  else if 97 ≤ n ∧ n ≤ 122 then some (n - 71)
  else if 48 ≤ n ∧ n ≤ 57 then some (n + 4)
  else if n = 43 then some 62
  else if n = 47 then some 63
  else none

/-- Base64 decoding of padded four-character groups (standard alphabet,
padding required, as the `base64` crate STANDARD engine enforces; trailing
bits are discarded).  Fails on any character outside the alphabet, on
misplaced padding, and on input whose length is not a multiple of four. -/
def base64Quads : List Char → Option (List Nat)
  | [] => some []
  | a :: b :: c :: d :: rest => do
    let va ← b64Val a
    let vb ← b64Val b
    if c = '=' then
      if d = '=' ∧ rest = [] then pure [va * 4 + vb / 16] else none
    else do
      let vc ← b64Val c
      if d = '=' then
        if rest = [] then pure [va * 4 + vb / 16, vb % 16 * 16 + vc / 4]
        else none
      else do
        let vd ← b64Val d
        let tail ← base64Quads rest
        pure ((va * 4 + vb / 16) :: (vb % 16 * 16 + vc / 4) :: (vc % 4 * 64 + vd) :: tail)
  | _ => none

/-- Model of `BASE64.decode` on a string. -/
def base64Decode (s : String) : Option (List Nat) :=
  base64Quads s.toList

/-- The verifier `verify_signature` of `src/signing.rs`: decode the
public key (base64 then 32-byte length check then point validation),
decode the signature (base64 then 64-byte length check), and only then
run the Ed25519 verification, whose boolean is returned.  Decode and
validation failures are `Err` values, not `Ok(false)`.  The Ed25519
point validation and the curve equation are abstracted as the parameters
`vkValid` and `edVerify`. -/
def verifySignatureFn (vkValid : List Nat → Bool)
    (edVerify : List Nat → List Nat → List Nat → Bool)
    (data : List Nat) (signatureBase64 publicKeyBase64 : String) :
    Except LxeError Bool :=
  match base64Decode publicKeyBase64 with
  | none => .error .invalidBase64PublicKey
  | some pkBytes =>
    if pkBytes.length ≠ 32 then .error .invalidPublicKeyLength
    else if ¬ vkValid pkBytes then .error .invalidPublicKeyFormat
    else
      match base64Decode signatureBase64 with
      | none => .error .invalidBase64Signature
      | some sigBytes =>
        if sigBytes.length ≠ 64 then .error .invalidSignatureLength
        else .ok (edVerify pkBytes data sigBytes)

/-- The helper `create_signable_data` of `src/signing.rs`: hex-decode the
metadata checksum string and append the bytes to the signable JSON. -/
def createSignableData (signableMetadataJson : List Nat)
    (payloadChecksumHex : String) : Except LxeError (List Nat) :=
  match hexDecode payloadChecksumHex with
  | none => .error .invalidChecksumHex
  | some bs => .ok (signableMetadataJson ++ bs)

/-- The runtime-side `verify_package_signature` of
`lxe-common/src/payload.rs`: unwrap the key and signature, build the
signable data from the metadata JSON and the metadata checksum string,
verify, and fail `unauthenticPackage` when the boolean is false.  The
signable serialization `to_signable_json` is abstracted as `sj`. -/
def verifyPackageSignature (vkValid : List Nat → Bool)
    (edVerify : List Nat → List Nat → List Nat → Bool)
    (sj : Metadata → List Nat) (m : Metadata) : Except LxeError Unit :=
  match m.public_key with
  | none => .error .missingPublicKey
  | some pk =>
    match m.signature with
    | none => .error .missingSignature
    | some sig =>
      match createSignableData (sj m) m.payload_checksum with
      | .error e => .error e
      | .ok data =>
        match verifySignatureFn vkValid edVerify data sig pk with
        | .error e => .error e
        | .ok true => .ok ()
        | .ok false => .error .unauthenticPackage

/-- The metadata-reading half of `read_payload_info`
(`lxe-common/src/payload.rs`): locate the magic, read the u32 LE metadata
length, refuse anything above 1 MiB, read and parse the metadata bytes
(JSON parsing abstracted as `parse`), then compute the payload offset by
skipping the 32-byte digest, and the payload size as all remaining bytes
of the file.  `read_exact` failures at end of file are `readPastEof`. -/
def readPayloadMeta (parse : List Nat → Option Metadata) (file : List Nat) :
    Except LxeError (Metadata × Nat × Nat) :=
  match findMagicOffset file with
  | none => .error .magicNotFound
  | some off =>
    if file.length < off + 12 then .error .readPastEof
    else
      let metadataLen := leDecode ((file.drop (off + 8)).take 4)
      if metadataLen > 1024 * 1024 then .error .metadataTooLarge
      else if file.length < off + 12 + metadataLen then .error .readPastEof
      else
        match parse ((file.drop (off + 12)).take metadataLen) with
        | none => .error .metadataParseError
        | some m =>
          let payloadOffset := off + 12 + metadataLen + 32
          .ok (m, payloadOffset, file.length - payloadOffset)

/-- The full `read_payload_info`: read and parse the metadata, then, only
when `is_signed` holds (both key and signature present), verify the
package signature before returning. -/
def readPayloadInfo (parse : List Nat → Option Metadata)
    (vkValid : List Nat → Bool)
    (edVerify : List Nat → List Nat → List Nat → Bool)
    (sj : Metadata → List Nat) (file : List Nat) :
    Except LxeError (Metadata × Nat × Nat) :=
  match readPayloadMeta parse file with
  | .error e => .error e
  | .ok (m, payloadOffset, payloadSize) =>
    if isSigned m then
      match verifyPackageSignature vkValid edVerify sj m with
      | .error e => .error e
      | .ok () => .ok (m, payloadOffset, payloadSize)
    else .ok (m, payloadOffset, payloadSize)

theorem drop_append_len {A B : List Nat} {n : Nat} (h : A.length = n) :
    (A ++ B).drop n = B := by
  subst h
  exact List.drop_left A B

theorem take_append_len {A B : List Nat} {n : Nat} (h : A.length = n) :
    (A ++ B).take n = A := by
  subst h
  exact List.take_left A B

/-- Reading a freshly built package parses its metadata and computes the
payload offset just past the 32-byte digest; the payload size spans all
remaining bytes of the file, footer included. -/
theorem readPayloadMeta_build (parse : List Nat → Option Metadata)
    (r mj d p : List Nat) (m : Metadata)
    (hr : r.length < 2 ^ 64) (hmj32 : mj.length < 2 ^ 32)
    (hmjM : mj.length ≤ 1024 * 1024) (hd : d.length = 32)
    (hparse : parse mj = some m) :
    readPayloadMeta parse (buildPackage r mj d p) =
      .ok (m, r.length + 12 + mj.length + 32, p.length + 16) := by
  have hL := buildPackage_length r mj d p
  have hsplit1 : buildPackage r mj d p =
      (r ++ LXE_MAGIC) ++
        (u32le mj.length ++ (mj ++ (d ++ (p ++ (u64le r.length ++ LXE_MAGIC))))) := by
    simp [buildPackage, List.append_assoc]
  have hsplit2 : buildPackage r mj d p =
      (r ++ LXE_MAGIC ++ u32le mj.length) ++
        (mj ++ (d ++ (p ++ (u64le r.length ++ LXE_MAGIC)))) := by
    simp [buildPackage, List.append_assoc]
  have hdrop8 : (buildPackage r mj d p).drop (r.length + 8) =
      u32le mj.length ++ (mj ++ (d ++ (p ++ (u64le r.length ++ LXE_MAGIC)))) := by
    rw [hsplit1]
    exact drop_append_len (by simp [LXE_MAGIC_length])
  have hlen4 : ((buildPackage r mj d p).drop (r.length + 8)).take 4 =
      u32le mj.length := by
    rw [hdrop8]
    exact take_append_len (u32le_length _)
  have hdrop12 : (buildPackage r mj d p).drop (r.length + 12) =
      mj ++ (d ++ (p ++ (u64le r.length ++ LXE_MAGIC))) := by
    rw [hsplit2]
    refine drop_append_len ?_
    simp [LXE_MAGIC_length, u32le_length]
  have hmeta : ((buildPackage r mj d p).drop (r.length + 12)).take mj.length =
      mj := by
    rw [hdrop12]
    exact take_append_len rfl
  have hsize : (buildPackage r mj d p).length - (r.length + 12 + mj.length + 32) =
      p.length + 16 := by
    omega
  simp only [readPayloadMeta, findMagicOffset_build r mj d p hr]
  rw [if_neg (by omega : ¬ (buildPackage r mj d p).length < r.length + 12),
    hlen4, leDecode_u32le _ hmj32,
    if_neg (by omega : ¬ mj.length > 1024 * 1024),
    if_neg (by omega : ¬ (buildPackage r mj d p).length < r.length + 12 + mj.length),
    hmeta, hparse, hsize]

theorem verifySignatureFn_ne_metadataTooLarge (vkValid : List Nat → Bool)
    (edVerify : List Nat → List Nat → List Nat → Bool)
    (data : List Nat) (sig pk : String) :
    verifySignatureFn vkValid edVerify data sig pk ≠
      Except.error LxeError.metadataTooLarge := by
  unfold verifySignatureFn
  cases base64Decode pk with
  | none => simp
  | some pkBytes =>
    by_cases h32 : pkBytes.length ≠ 32
    · simp [h32]
    · by_cases hvk : vkValid pkBytes
      · cases base64Decode sig with
        | none => simp [h32, hvk]
        | some sigBytes =>
          by_cases h64 : sigBytes.length ≠ 64 <;> simp [h32, hvk, h64]
      · simp [h32, hvk]

theorem verifyPackageSignature_ne_metadataTooLarge (vkValid : List Nat → Bool)
    (edVerify : List Nat → List Nat → List Nat → Bool)
    (sj : Metadata → List Nat) (m : Metadata) :
    verifyPackageSignature vkValid edVerify sj m ≠
      Except.error LxeError.metadataTooLarge := by
  unfold verifyPackageSignature
  cases m.public_key with
  | none => simp
  | some pk =>
    cases m.signature with
    | none => simp
    | some sig =>
      unfold createSignableData
      cases hexDecode m.payload_checksum with
      | none => simp
      | some bs =>
        cases hv : verifySignatureFn vkValid edVerify (sj m ++ bs) sig pk with
        | error e =>
          have hne := verifySignatureFn_ne_metadataTooLarge vkValid edVerify
            (sj m ++ bs) sig pk
          rw [hv] at hne
          simpa [hv] using hne
        | ok b => cases b <;> simp [hv]

/-- C9: when the runtime reads the embedded metadata, a decoded length of
at most 1 MiB (1048576 bytes inclusive) is accepted, and any larger
length is refused with the metadata-too-large error; the refusal happens
before the metadata bytes are parsed, so it holds for every parse
function. -/
theorem C9_metadata_length_gate
    (vkValid : List Nat → Bool)
    (edVerify : List Nat → List Nat → List Nat → Bool)
    (sj : Metadata → List Nat) (file : List Nat) (off n : Nat)
    (hoff : findMagicOffset file = some off)
    (hn : n = leDecode ((file.drop (off + 8)).take 4))
    (heof : off + 12 + n ≤ file.length) :
    (1024 * 1024 < n →
      ∀ parse, readPayloadInfo parse vkValid edVerify sj file =
        .error .metadataTooLarge) ∧
    (n ≤ 1024 * 1024 →
      ∀ parse, readPayloadInfo parse vkValid edVerify sj file ≠
        .error .metadataTooLarge) := by
  constructor
  · intro hbig parse
    simp only [readPayloadInfo, readPayloadMeta, hoff]
    rw [if_neg (by omega : ¬ file.length < off + 12), ← hn,
      if_pos (by omega : n > 1024 * 1024)]
  · intro hsmall parse
    simp only [readPayloadInfo, readPayloadMeta, hoff]
    rw [if_neg (by omega : ¬ file.length < off + 12), ← hn,
      if_neg (by omega : ¬ n > 1024 * 1024),
      if_neg (by omega : ¬ file.length < off + 12 + n)]
    cases hp : parse ((file.drop (off + 12)).take n) with
    | none => simp
    | some m =>
      simp only []
      by_cases hs : isSigned m
      · rw [if_pos hs]
        cases hv : verifyPackageSignature vkValid edVerify sj m with
        | error e =>
          have hne := verifyPackageSignature_ne_metadataTooLarge vkValid edVerify sj m
          rw [hv] at hne
          simpa using hne
        | ok u => simp
      · rw [if_neg hs]
        simp

/-- Witness for C9 at a concrete built package with a 1-byte metadata
field. -/
theorem C9_metadata_length_gate_witness :
    (findMagicOffset (buildPackage [7] [65] (List.replicate 32 0) [9]) = some 1) ∧
      ((1 : Nat) ≤ 1024 * 1024 ∧
        readPayloadInfo (fun _ => none) (fun _ => true) (fun _ _ _ => true)
          (fun _ => []) (buildPackage [7] [65] (List.replicate 32 0) [9]) ≠
          Except.error LxeError.metadataTooLarge) :=
  ⟨by decide,
    by decide,
    (C9_metadata_length_gate (fun _ => true) (fun _ _ _ => true) (fun _ => [])
      (buildPackage [7] [65] (List.replicate 32 0) [9]) 1 1
      (by decide) (by decide) (by decide)).2 (by decide) (fun _ => none)⟩

/-- A metadata value carrying a public key but no signature (exactly one
signature field present). -/
def mdOnlyKey : Metadata :=
  { format_version := 1, app_id := "com.ex.demo", name := "Demo",
    version := "1.0.0", arch := "x86_64", install_size := 3, exec := "run",
    icon := none, categories := ["Application"], description := none,
    payload_checksum := "00", min_runtime_version := none, license := none,
    homepage := none, exec_args := none, terminal := false, wm_class := none,
    public_key := some "AAAA", signature := none }

/-- A metadata value carrying a signature but no public key. -/
def mdOnlySig : Metadata :=
  { mdOnlyKey with public_key := none, signature := some "AAAA" }

/-- C1: the spec requires a hard failure (`MalformedSignature`) when
exactly one of `public_key` and `signature` is present, but `is_signed`
demands both fields, so `read_payload_info` treats either one-sided
metadata as unsigned and returns successfully without any verification.
Evaluated on a concrete package for both one-sided cases. -/
theorem C1_xor_signature_field_is_not_rejected :
    (isSigned mdOnlyKey = false ∧ isSigned mdOnlySig = false) ∧
      readPayloadInfo (fun _ => some mdOnlyKey) (fun _ => true)
        (fun _ _ _ => true) (fun _ => [])
        (buildPackage [7] [65] (List.replicate 32 0) [9]) =
        .ok (mdOnlyKey, 46, 17) ∧
      readPayloadInfo (fun _ => some mdOnlySig) (fun _ => true)
        (fun _ _ _ => true) (fun _ => [])
        (buildPackage [7] [65] (List.replicate 32 0) [9]) =
        .ok (mdOnlySig, 46, 17) := by
  exact ⟨⟨rfl, rfl⟩, rfl, rfl⟩

/-- The byte sequence `verify_package_signature` hands to
`verify_signature` for a given package file: the signable JSON of the
parsed metadata followed by the bytes hex-decoded from the metadata's
`payload_checksum` string (composition of `read_payload_info` and
`create_signable_data`). -/
def packageVerifiedMessage (parse : List Nat → Option Metadata)
    (sj : Metadata → List Nat) (file : List Nat) : Option (List Nat) :=
  match readPayloadMeta parse file with
  | .error _ => none
  | .ok (m, _, _) =>
    match createSignableData (sj m) m.payload_checksum with
    | .error _ => none
    | .ok data => some data

/-- The 32-byte on-disk digest field of a package file, the 32 bytes
immediately preceding the payload. -/
def onDiskDigest (parse : List Nat → Option Metadata) (file : List Nat) :
    Option (List Nat) :=
  match readPayloadMeta parse file with
  | .error _ => none
  | .ok (_, payloadOffset, _) => some ((file.drop (payloadOffset - 32)).take 32)

/-- A metadata value with both signature fields present, whose checksum
string "00" hex-decodes to the single byte 0. -/
def mdSigned : Metadata :=
  { mdOnlyKey with signature := some "BBBB" }

/-- A parse function returning `mdSigned` for any metadata bytes. -/
def parseC2 : List Nat → Option Metadata := fun _ => some mdSigned

/-- A signable serialization that is constantly empty. -/
def sjC2 : Metadata → List Nat := fun _ => []

/-- A package whose on-disk digest field is 32 bytes of 0xAA, while the
embedded metadata's checksum string decodes to [0]. -/
def fileC2 : List Nat := buildPackage [7] [65] (List.replicate 32 170) [9]

/-- Counterexample to C2: on `fileC2` the message the runtime verifies is
the signable bytes followed by the hex-decoded metadata checksum `[0]`,
not the signable bytes followed by the on-disk 32-byte digest field
(which is 32 bytes of 0xAA here). -/
theorem C2_counterexample_message_ignores_on_disk_digest :
    packageVerifiedMessage parseC2 sjC2 fileC2 = some [0] ∧
      onDiskDigest parseC2 fileC2 = some (List.replicate 32 170) ∧
      ([0] : List Nat) ≠ sjC2 mdSigned ++ List.replicate 32 170 :=
  ⟨rfl, rfl, by decide⟩

/-- C2 amended: for every signed package the message the runtime verifies
is `signable_bytes(metadata)` followed by the bytes hex-decoded from the
metadata's `payload_checksum` string; the on-disk 32-byte digest field is
skipped without being read, so the message is invariant under replacing
that field. -/
theorem C2_verified_message_uses_metadata_checksum
    (parse : List Nat → Option Metadata) (sj : Metadata → List Nat)
    (r mj d d2 p : List Nat) (m : Metadata) (bs : List Nat)
    (hr : r.length < 2 ^ 64) (hmj32 : mj.length < 2 ^ 32)
    (hmjM : mj.length ≤ 1024 * 1024)
    (hd : d.length = 32) (hd2 : d2.length = 32)
    (hparse : parse mj = some m)
    (hbs : hexDecode m.payload_checksum = some bs) :
    packageVerifiedMessage parse sj (buildPackage r mj d p) =
      some (sj m ++ bs) ∧
    packageVerifiedMessage parse sj (buildPackage r mj d p) =
      packageVerifiedMessage parse sj (buildPackage r mj d2 p) := by
  have h1 : packageVerifiedMessage parse sj (buildPackage r mj d p) =
      some (sj m ++ bs) := by
    simp only [packageVerifiedMessage,
      readPayloadMeta_build parse r mj d p m hr hmj32 hmjM hd hparse,
      createSignableData, hbs]
  have h2 : packageVerifiedMessage parse sj (buildPackage r mj d2 p) =
      some (sj m ++ bs) := by
    simp only [packageVerifiedMessage,
      readPayloadMeta_build parse r mj d2 p m hr hmj32 hmjM hd2 hparse,
      createSignableData, hbs]
  exact ⟨h1, h1.trans h2.symm⟩

/-- Witness for the amended C2 theorem at concrete inputs. -/
theorem C2_verified_message_uses_metadata_checksum_witness :
    (hexDecode mdSigned.payload_checksum = some [0]) ∧
      packageVerifiedMessage parseC2 sjC2
        (buildPackage [7] [65] (List.replicate 32 170) [9]) =
        some (sjC2 mdSigned ++ [0]) :=
  ⟨by decide,
    (C2_verified_message_uses_metadata_checksum parseC2 sjC2 [7] [65]
      (List.replicate 32 170) (List.replicate 32 0) [9] mdSigned [0]
      (by decide) (by decide) (by decide) (by decide) (by decide)
      (by decide) (by decide)).1⟩

/-- Counterexample to C7: on an undecodable public key the verifier
returns an error value, not the boolean false. -/
theorem C7_counterexample_decode_failure_is_error_not_false :
    verifySignatureFn (fun _ => true) (fun _ _ _ => true) [0] "AAAA" "!!!!" =
      .error .invalidBase64PublicKey ∧
      (Except.error LxeError.invalidBase64PublicKey : Except LxeError Bool) ≠
        .ok false :=
  ⟨rfl, fun h => Except.noConfusion h⟩

/-- C7 amended: `verify_signature` returns a boolean only when both the
public key and the signature decode to well-formed values; every decode
failure (bad base64, wrong length, invalid key point) is a distinct error
value rather than `false`, and none of these error values is the
`unauthenticPackage` outcome that an invalid-but-well-formed signature
produces. -/
theorem C7_decode_failures_produce_errors
    (vkValid : List Nat → Bool)
    (edVerify : List Nat → List Nat → List Nat → Bool) :
    (∀ data sig pk, base64Decode pk = none →
      verifySignatureFn vkValid edVerify data sig pk =
        .error .invalidBase64PublicKey) ∧
    (∀ data sig pk pkBytes, base64Decode pk = some pkBytes →
      pkBytes.length ≠ 32 →
      verifySignatureFn vkValid edVerify data sig pk =
        .error .invalidPublicKeyLength) ∧
    (∀ data sig pk pkBytes, base64Decode pk = some pkBytes →
      pkBytes.length = 32 → vkValid pkBytes = false →
      verifySignatureFn vkValid edVerify data sig pk =
        .error .invalidPublicKeyFormat) ∧
    (∀ data sig pk pkBytes, base64Decode pk = some pkBytes →
      pkBytes.length = 32 → vkValid pkBytes = true → base64Decode sig = none →
      verifySignatureFn vkValid edVerify data sig pk =
        .error .invalidBase64Signature) ∧
    (∀ data sig pk pkBytes sigBytes, base64Decode pk = some pkBytes →
      pkBytes.length = 32 → vkValid pkBytes = true →
      base64Decode sig = some sigBytes → sigBytes.length ≠ 64 →
      verifySignatureFn vkValid edVerify data sig pk =
        .error .invalidSignatureLength) ∧
    (∀ data sig pk pkBytes sigBytes, base64Decode pk = some pkBytes →
      pkBytes.length = 32 → vkValid pkBytes = true →
      base64Decode sig = some sigBytes → sigBytes.length = 64 →
      verifySignatureFn vkValid edVerify data sig pk =
        .ok (edVerify pkBytes data sigBytes)) ∧
    (LxeError.invalidBase64PublicKey ≠ LxeError.unauthenticPackage ∧
      LxeError.invalidPublicKeyLength ≠ LxeError.unauthenticPackage ∧
      LxeError.invalidPublicKeyFormat ≠ LxeError.unauthenticPackage ∧
      LxeError.invalidBase64Signature ≠ LxeError.unauthenticPackage ∧
      LxeError.invalidSignatureLength ≠ LxeError.unauthenticPackage) := by
  refine ⟨?_, ?_, ?_, ?_, ?_, ?_, by decide⟩
  · intro data sig pk h
    simp [verifySignatureFn, h]
  · intro data sig pk pkBytes h h32
    simp [verifySignatureFn, h, h32]
  · intro data sig pk pkBytes h h32 hvk
    simp [verifySignatureFn, h, h32, hvk]
  · intro data sig pk pkBytes h h32 hvk hs
    simp [verifySignatureFn, h, h32, hvk, hs]
  · intro data sig pk pkBytes sigBytes h h32 hvk hs h64
    simp [verifySignatureFn, h, h32, hvk, hs, h64]
  · intro data sig pk pkBytes sigBytes h h32 hvk hs h64
    simp [verifySignatureFn, h, h32, hvk, hs, h64]

/-- Witness for the amended C7 theorem on an undecodable public key. -/
theorem C7_decode_failures_produce_errors_witness :
    (base64Decode "!" = none) ∧
      verifySignatureFn (fun _ => true) (fun _ _ _ => true) [1] "A" "!" =
        .error .invalidBase64PublicKey :=
  ⟨by decide,
    (C7_decode_failures_produce_errors (fun _ => true) (fun _ _ _ => true)).1
      [1] "A" "!" (by decide)⟩

/-- The optional digest recheck `verify_checksum` of `src/extractor.rs`:
hash `payload_size` bytes starting at `payload_offset` and compare the
lowercase hex encoding against the metadata checksum string, where
`payload_offset` and `payload_size` come from `read_payload_info`.
SHA-256 is abstracted as `hash`. -/
def verifyChecksum (hash : List Nat → List Nat) (file : List Nat)
    (m : Metadata) (payloadOffset payloadSize : Nat) : Bool :=
  hexEncode (hash ((file.drop payloadOffset).take payloadSize)) ==
    m.payload_checksum

/-- C4, settled against the code: the builder's 32-byte digest field at
offset O+8+4+N is the hash of exactly the payload byte range
[O+8+4+N+32, len−16) (first two conjuncts), but the runtime recheck
hashes `payload_size = len − payload_offset` bytes, which is that range
plus the 16-byte footer (fourth conjunct); consequently the recheck
reports a mismatch on the untampered package whenever the hash separates
the payload from payload-plus-footer (last conjunct). -/
theorem C4_digest_binding_holds_but_recheck_hashes_footer
    (hash : List Nat → List Nat) (parse : List Nat → Option Metadata)
    (r mj p : List Nat) (m : Metadata)
    (hr : r.length < 2 ^ 64) (hmj32 : mj.length < 2 ^ 32)
    (hmjM : mj.length ≤ 1024 * 1024)
    (hh : (hash p).length = 32) (hparse : parse mj = some m) :
    ((buildPackage r mj (hash p) p).drop (r.length + 12 + mj.length)).take 32 =
      hash p ∧
    ((buildPackage r mj (hash p) p).drop (r.length + 12 + mj.length + 32)).take
        ((buildPackage r mj (hash p) p).length - 16 -
          (r.length + 12 + mj.length + 32)) = p ∧
    readPayloadMeta parse (buildPackage r mj (hash p) p) =
      .ok (m, r.length + 12 + mj.length + 32, p.length + 16) ∧
    ((buildPackage r mj (hash p) p).drop
        (r.length + 12 + mj.length + 32)).take (p.length + 16) =
      p ++ (u64le r.length ++ LXE_MAGIC) ∧
    (m.payload_checksum = hexEncode (hash p) →
      hexEncode (hash (p ++ (u64le r.length ++ LXE_MAGIC))) ≠
        hexEncode (hash p) →
      verifyChecksum hash (buildPackage r mj (hash p) p) m
        (r.length + 12 + mj.length + 32) (p.length + 16) = false) := by
  have hL := buildPackage_length r mj (hash p) p
  have hsplit3 : buildPackage r mj (hash p) p =
      (r ++ LXE_MAGIC ++ u32le mj.length ++ mj) ++
        (hash p ++ (p ++ (u64le r.length ++ LXE_MAGIC))) := by
    simp [buildPackage, List.append_assoc]
  have hsplit4 : buildPackage r mj (hash p) p =
      (r ++ LXE_MAGIC ++ u32le mj.length ++ mj ++ hash p) ++
        (p ++ (u64le r.length ++ LXE_MAGIC)) := by
    simp [buildPackage, List.append_assoc]
  have hdropD : (buildPackage r mj (hash p) p).drop
      (r.length + 12 + mj.length) =
      hash p ++ (p ++ (u64le r.length ++ LXE_MAGIC)) := by
    rw [hsplit3]
    refine drop_append_len ?_
    simp [LXE_MAGIC_length, u32le_length]
    omega
  have hdigest : ((buildPackage r mj (hash p) p).drop
      (r.length + 12 + mj.length)).take 32 = hash p := by
    rw [hdropD]
    exact take_append_len hh
  have hdropP : (buildPackage r mj (hash p) p).drop
      (r.length + 12 + mj.length + 32) =
      p ++ (u64le r.length ++ LXE_MAGIC) := by
    rw [hsplit4]
    refine drop_append_len ?_
    simp [LXE_MAGIC_length, u32le_length]
    omega
  have hrange : (buildPackage r mj (hash p) p).length - 16 -
      (r.length + 12 + mj.length + 32) = p.length := by
    omega
  have hpay : ((buildPackage r mj (hash p) p).drop
      (r.length + 12 + mj.length + 32)).take
        ((buildPackage r mj (hash p) p).length - 16 -
          (r.length + 12 + mj.length + 32)) = p := by
    rw [hrange, hdropP]
    exact take_append_len rfl
  have htailLen : (p ++ (u64le r.length ++ LXE_MAGIC)).length = p.length + 16 := by
    simp [u64le_length, LXE_MAGIC_length]
  have hhashed : ((buildPackage r mj (hash p) p).drop
      (r.length + 12 + mj.length + 32)).take (p.length + 16) =
      p ++ (u64le r.length ++ LXE_MAGIC) := by
    rw [hdropP]
    exact List.take_of_length_le (le_of_eq htailLen)
  refine ⟨hdigest, hpay,
    readPayloadMeta_build parse r mj (hash p) p m hr hmj32 hmjM hh hparse,
    hhashed, ?_⟩
  intro hchk hneq
  unfold verifyChecksum
  rw [hhashed, hchk]
  exact beq_eq_false_iff_ne.mpr hneq

/-- A stand-in 32-byte hash keyed on input length, enough to separate the
payload from payload-plus-footer. -/
def hashC4 : List Nat → List Nat := fun l => List.replicate 32 (l.length % 256)

/-- A metadata value whose checksum string is the hex of `hashC4 [9]`,
matching what the builder would embed for payload `[9]`. -/
def mdC4 : Metadata :=
  { mdOnlyKey with payload_checksum := hexEncode (List.replicate 32 1) }

/-- Witness for C4: on a concrete untampered package the recheck
evaluates to false because it hashes the footer too. -/
theorem C4_digest_binding_holds_but_recheck_hashes_footer_witness :
    ((hashC4 [9]).length = 32) ∧
      verifyChecksum hashC4 (buildPackage [7] [65] (hashC4 [9]) [9]) mdC4
        46 17 = false :=
  ⟨by decide,
    (C4_digest_binding_holds_but_recheck_hashes_footer hashC4
      (fun _ => some mdC4) [7] [65] [9] mdC4 (by decide) (by decide)
      (by decide) (by decide) (by decide)).2.2.2.2 (by decide) (by decide)⟩

/-- One entry of the `{base}/bin` directory listing as seen by the
uninstall loop of `lxe-runtime/src/installer.rs`: its name, whether it is
a symlink, and the link target (components of an absolute path) when
`read_link` succeeds. -/
structure BinEntry where
  name : String
  isLink : Bool
  linkTarget : Option (List String)
deriving DecidableEq, Repr

/-- Display form of an absolute path, as `to_string_lossy` yields it. -/
def rpathString (p : List String) : String :=
  p.foldl (fun acc c => acc ++ "/" ++ c) ""

/-- Substring test on character lists, modelling Rust `str::contains`. -/
def containsSub (needle hay : List Char) : Bool :=
  (List.range (hay.length + 1)).any (fun i => needle.isPrefixOf (hay.drop i))

/-- The removal condition of the uninstall loop:
`target.starts_with(&app_dir) || target.to_string_lossy().contains(app_id)`.
`Path::starts_with` is the component-wise prefix. -/
def symlinkTargetMatches (appDir : List String) (appId : String)
    (t : List String) : Bool :=
  appDir.isPrefixOf t || containsSub appId.toList (rpathString t).toList

/-- Whether the uninstall loop removes a given bin entry: it must be a
symlink whose target was read successfully and matches the condition. -/
def uninstallRemovesLink (appDir : List String) (appId : String)
    (e : BinEntry) : Bool :=
  e.isLink && (match e.linkTarget with
    | some t => symlinkTargetMatches appDir appId t
    | none => false)

/-- The uninstall bin sweep: walk the directory entries in order and drop
exactly those the loop removes, keeping everything else. -/
def uninstallBinSweep (appDir : List String) (appId : String) :
    List BinEntry → List BinEntry
  | [] => []
  | e :: rest =>
    if uninstallRemovesLink appDir appId e then uninstallBinSweep appDir appId rest
    else e :: uninstallBinSweep appDir appId rest

/-- Counterexample to C8: a bin symlink whose target does not lie under
the app directory, but whose target string contains the app_id, is
removed by the sweep. -/
theorem C8_counterexample_substring_match_removed :
    uninstallBinSweep ["home", "u", ".local", "share", "com.ex.demo"]
        "com.ex.demo"
        [⟨"run", true, some ["tmp", "com.ex.demo", "run"]⟩] = [] ∧
      List.isPrefixOf ["home", "u", ".local", "share", "com.ex.demo"]
        ["tmp", "com.ex.demo", "run"] = false := by
  decide

/-- C8 amended: the sweep removes exactly the symlinks whose read target
either starts with the app directory (component-wise) or whose target
string contains the app_id as a substring; every other entry, symlink or
not, remains in place. -/
theorem C8_sweep_removes_prefix_or_substring_targets
    (appDir : List String) (appId : String) (entries : List BinEntry) :
    uninstallBinSweep appDir appId entries =
      entries.filter (fun e => ! uninstallRemovesLink appDir appId e) ∧
    (∀ e, e ∈ entries → uninstallRemovesLink appDir appId e = false →
      e ∈ uninstallBinSweep appDir appId entries) := by
  have hfilter : ∀ l : List BinEntry, uninstallBinSweep appDir appId l =
      l.filter (fun e => ! uninstallRemovesLink appDir appId e) := by
    intro l
    induction l with
    | nil => rfl
    | cons e rest ih =>
      by_cases h : uninstallRemovesLink appDir appId e = true
      · simp [uninstallBinSweep, h, List.filter, ih]
      · simp only [Bool.not_eq_true] at h
        simp [uninstallBinSweep, h, List.filter, ih]
  refine ⟨hfilter entries, ?_⟩
  intro e he hkeep
  rw [hfilter entries]
  exact List.mem_filter.mpr ⟨he, by simp [hkeep]⟩

/-- Witness for the amended C8 theorem: a symlink pointing elsewhere with
no app_id substring in its target is kept. -/
theorem C8_sweep_removes_prefix_or_substring_targets_witness :
    (⟨"run", true, some ["opt", "other", "run"]⟩ : BinEntry) ∈
      uninstallBinSweep ["home", "u", ".local", "share", "com.ex.demo"]
        "com.ex.demo" [⟨"run", true, some ["opt", "other", "run"]⟩] :=
  (C8_sweep_removes_prefix_or_substring_targets
      ["home", "u", ".local", "share", "com.ex.demo"] "com.ex.demo"
      [⟨"run", true, some ["opt", "other", "run"]⟩]).2
    ⟨"run", true, some ["opt", "other", "run"]⟩ (by decide) (by decide)

/-- A tar entry path as the `tar` crate yields it: an absolute flag and
the raw components, which may include `..` and `.` segments. -/
structure EntryPath where
  absolute : Bool
  comps : List String
deriving DecidableEq, Repr

/-- Rust `PathBuf::join` as used in `temp_dir.join(&path)`: an absolute
right-hand path replaces the base entirely, a relative one is appended. -/
def joinUnder (base : List String) (p : EntryPath) : List String :=
  if p.absolute then p.comps else base ++ p.comps

/-- Lexical resolution the operating system performs when the entry is
actually created: `.` is dropped and `..` pops one component. -/
def normAbs (p : List String) : List String :=
  p.foldl (fun acc c =>
    if c = "." then acc
    else if c = ".." then acc.dropLast
    else acc ++ [c]) []

/-- One item of the decoded tar stream: a good header entry, or the point
at which the zstd decoder or tar reader fails. -/
inductive TarItem where
  | entry (p : EntryPath)
  | corrupt
deriving DecidableEq, Repr

/-- The name of the staging directory created next to the final install
location (`{target}/.lxe-extracting`). -/
def stagingDirName : String := ".lxe-extracting"

/-- Path existence in the modelled filesystem (a list of absolute paths):
a path exists when it is one of, or an ancestor of, a recorded path. -/
def fsHas (fs : List (List String)) (p : List String) : Bool :=
  fs.any (fun q => p.isPrefixOf q)

/-- Model of `remove_dir_all`: drop every recorded path at or below `p`. -/
def fsRemoveAll (fs : List (List String)) (p : List String) :
    List (List String) :=
  fs.filter (fun q => ! p.isPrefixOf q)

/-- Model of `rename a b`: re-root every recorded path below `a` at `b`. -/
def fsRename (fs : List (List String)) (a b : List String) :
    List (List String) :=
  fs.map (fun q => if a.isPrefixOf q then b ++ q.drop a.length else q)

/-- The entry loop of `extract_inner` (`src/extractor.rs`): for each tar
entry, compute the target as `temp_dir.join(path)` (no rejection of
absolute or `..` paths is performed), create the parent directory, and
unpack the entry at the resolved target.  A decoder or tar error aborts
the loop immediately, returning the filesystem as it stands. -/
def runEntries (staging : List String) :
    List (List String) → List TarItem → Bool × List (List String)
  | fs, [] => (true, fs)
  | fs, TarItem.corrupt :: _ => (false, fs)
  | fs, TarItem.entry p :: rest =>
    let target := normAbs (joinUnder staging p)
    runEntries staging ((fs ++ [target.dropLast]) ++ [target]) rest

/-- The set-up steps of `extract_inner`: ensure the target directory
exists, remove a pre-existing staging directory, and create a fresh one. -/
def prepareStaging (targetDir : List String) (fs : List (List String)) :
    List (List String) :=
  let staging := targetDir ++ [stagingDirName]
  let fs1 := fs ++ [targetDir]
  let fs2 := if fsHas fs1 staging then fsRemoveAll fs1 staging else fs1
  fs2 ++ [staging]

/-- The whole of `extract_inner`: ensure the target directory, clear and
recreate the staging directory, run the entry loop, and only on a cleanly
terminated stream remove a prior install at `{target}/{app_id}` and
promote the staging directory by rename.  On a mid-stream failure the
function returns the error with the filesystem untouched from that point
(no staging cleanup is performed). -/
def extractInner (targetDir : List String) (appId : String)
    (fs : List (List String)) (items : List TarItem) :
    Bool × List (List String) :=
  let staging := targetDir ++ [stagingDirName]
  match runEntries staging (prepareStaging targetDir fs) items with
  | (false, fs4) => (false, fs4)
  | (true, fs4) =>
    let final := targetDir ++ [appId]
    let fs5 := if fsHas fs4 final then fsRemoveAll fs4 final else fs4
    (true, fsRename fs5 staging final)

/-- C3, settled against the code: `extract_inner` performs no path
sanitization, so a `../x` entry is written to the parent of the staging
directory and an absolute `/etc/x` entry is written to `/etc/x`; both
extractions report success instead of failing, and both create a file
outside the staging directory. -/
theorem C3_traversal_entries_escape_staging_without_error :
    (extractInner ["home", "u", ".local", "share"] "com.ex.demo" []
        [TarItem.entry ⟨false, ["..", "x"]⟩]).1 = true ∧
      ["home", "u", ".local", "share", "x"] ∈
        (extractInner ["home", "u", ".local", "share"] "com.ex.demo" []
          [TarItem.entry ⟨false, ["..", "x"]⟩]).2 ∧
      List.isPrefixOf ["home", "u", ".local", "share", stagingDirName]
        ["home", "u", ".local", "share", "x"] = false ∧
      (extractInner ["home", "u", ".local", "share"] "com.ex.demo" []
        [TarItem.entry ⟨true, ["etc", "x"]⟩]).1 = true ∧
      ["etc", "x"] ∈
        (extractInner ["home", "u", ".local", "share"] "com.ex.demo" []
          [TarItem.entry ⟨true, ["etc", "x"]⟩]).2 ∧
      List.isPrefixOf ["home", "u", ".local", "share", stagingDirName]
        ["etc", "x"] = false := by
  decide

/-- Counterexample to C6: when the stream fails immediately, the staging
directory `{target}/.lxe-extracting` is still present in the resulting
filesystem — `extract_inner` performs no staging cleanup on error. -/
theorem C6_counterexample_staging_left_behind_on_failure :
    (extractInner ["home", "u", ".local", "share"] "com.ex.demo"
        [["home", "u", ".local", "share", "com.ex.demo", "old.txt"]]
        [TarItem.corrupt]).1 = false ∧
      ["home", "u", ".local", "share", stagingDirName] ∈
        (extractInner ["home", "u", ".local", "share"] "com.ex.demo"
          [["home", "u", ".local", "share", "com.ex.demo", "old.txt"]]
          [TarItem.corrupt]).2 := by
  decide

/-- Two extensions of the same directory by different names are never
prefixes of a common path. -/
theorem prefix_snoc_incompat {td : List String} {a b : String} (hab : a ≠ b)
    {q : List String} (h : td ++ [a] <+: q) : ¬ td ++ [b] <+: q := by
  rintro ⟨t2, ht2⟩
  obtain ⟨t1, ht1⟩ := h
  have h3 : td ++ ([a] ++ t1) = td ++ ([b] ++ t2) := by
    rw [← List.append_assoc, ht1, ← List.append_assoc, ht2]
  have h4 := List.append_cancel_left h3
  simp only [List.singleton_append, List.cons.injEq] at h4
  exact hab h4.1

/-- The entry loop only ever adds paths to the filesystem. -/
theorem runEntries_mono (staging : List String) (items : List TarItem)
    (fs : List (List String)) (q : List String) (hq : q ∈ fs) :
    q ∈ (runEntries staging fs items).2 := by
  induction items generalizing fs with
  | nil => simpa [runEntries] using hq
  | cons it rest ih =>
    cases it with
    | corrupt => simpa [runEntries] using hq
    | entry p =>
      simp only [runEntries]
      exact ih _ (List.mem_append_left _ (List.mem_append_left _ hq))

/-- Membership below a directory that no entry writes into is invariant
under the entry loop. -/
theorem runEntries_mem_iff (staging final : List String)
    (items : List TarItem) (fs : List (List String)) (q : List String)
    (hq : final <+: q)
    (H : ∀ p, TarItem.entry p ∈ items →
      ¬ final <+: normAbs (joinUnder staging p) ∧
      ¬ final <+: (normAbs (joinUnder staging p)).dropLast) :
    (q ∈ (runEntries staging fs items).2 ↔ q ∈ fs) := by
  induction items generalizing fs with
  | nil => simp [runEntries]
  | cons it rest ih =>
    cases it with
    | corrupt => simp [runEntries]
    | entry p =>
      have hp := H p (List.mem_cons_self _ _)
      have H2 : ∀ p2, TarItem.entry p2 ∈ rest →
          ¬ final <+: normAbs (joinUnder staging p2) ∧
          ¬ final <+: (normAbs (joinUnder staging p2)).dropLast :=
        fun p2 h2 => H p2 (List.mem_cons_of_mem _ h2)
      simp only [runEntries]
      rw [ih _ H2]
      simp only [List.mem_append, List.mem_singleton]
      constructor
      · rintro ((hfs | hpar) | htar)
        · exact hfs
        · exact absurd (hpar ▸ hq) hp.2
        · exact absurd (htar ▸ hq) hp.1
      · intro hfs
        exact Or.inl (Or.inl hfs)

theorem prepareStaging_mem_staging (targetDir : List String)
    (fs : List (List String)) :
    (targetDir ++ [stagingDirName]) ∈ prepareStaging targetDir fs := by
  unfold prepareStaging
  simp

theorem prepareStaging_mem_iff (targetDir : List String) (appId : String)
    (fs : List (List String)) (q : List String)
    (hne : appId ≠ stagingDirName)
    (hq : targetDir ++ [appId] <+: q) :
    (q ∈ prepareStaging targetDir fs ↔ q ∈ fs) := by
  have hnostg : ¬ targetDir ++ [stagingDirName] <+: q :=
    prefix_snoc_incompat hne hq
  have hq_ne_staging : q ≠ targetDir ++ [stagingDirName] := by
    intro he
    exact hnostg (he ▸ List.prefix_refl q)
  have hq_ne_td : q ≠ targetDir := by
    intro he
    have hlen := hq.length_le
    rw [he] at hlen
    simp only [List.length_append, List.length_singleton] at hlen
    omega
  have hfilter : q ∈ fsRemoveAll (fs ++ [targetDir])
      (targetDir ++ [stagingDirName]) ↔ q ∈ fs ++ [targetDir] := by
    unfold fsRemoveAll
    rw [List.mem_filter]
    constructor
    · exact fun h => h.1
    · intro h
      refine ⟨h, ?_⟩
      simp only [Bool.not_eq_true', ← Bool.not_eq_true]
      intro hc
      exact hnostg (List.isPrefixOf_iff_prefix.mp hc)
  unfold prepareStaging
  simp only [List.mem_append, List.mem_singleton]
  by_cases hhas : fsHas (fs ++ [targetDir]) (targetDir ++ [stagingDirName])
  · rw [if_pos hhas]
    constructor
    · rintro (hmem | hst)
      · rcases List.mem_append.mp (hfilter.mp hmem) with h | h
        · exact h
        · exact absurd (List.mem_singleton.mp h) hq_ne_td
      · exact absurd hst hq_ne_staging
    · intro hmem
      exact Or.inl (hfilter.mpr (List.mem_append_left _ hmem))
  · rw [if_neg hhas]
    constructor
    · rintro (hmem | hst)
      · rcases List.mem_append.mp hmem with h | h
        · exact h
        · exact absurd (List.mem_singleton.mp h) hq_ne_td
      · exact absurd hst hq_ne_staging
    · intro hmem
      exact Or.inl (List.mem_append_left _ hmem)

theorem extractInner_snd_of_fail (targetDir : List String) (appId : String)
    (fs : List (List String)) (items : List TarItem)
    (hfail : (extractInner targetDir appId fs items).1 = false) :
    (extractInner targetDir appId fs items).2 =
      (runEntries (targetDir ++ [stagingDirName])
        (prepareStaging targetDir fs) items).2 := by
  simp only [extractInner] at hfail ⊢
  cases hR : runEntries (targetDir ++ [stagingDirName])
      (prepareStaging targetDir fs) items with
  | mk flag fs4 =>
    rw [hR] at hfail
    cases flag
    · rfl
    · exact Bool.noConfusion hfail

/-- C6 amended: if extraction fails mid-stream, `extract_inner` returns
the error with the staging directory still present (it is deleted only at
the start of the next extraction run, not on failure), while the prior
installation at `{target}/{app_id}` is untouched, provided the entries
unpacked before the failure stayed inside the staging directory;
promotion by rename happens only on a cleanly terminated stream. -/
theorem C6_failure_keeps_staging_and_prior_install
    (targetDir : List String) (appId : String)
    (fs : List (List String)) (items : List TarItem)
    (hne : appId ≠ stagingDirName)
    (hsafe : ∀ p, TarItem.entry p ∈ items → p.absolute = false ∧
      List.isPrefixOf (targetDir ++ [stagingDirName])
        (normAbs ((targetDir ++ [stagingDirName]) ++ p.comps)) = true)
    (hfail : (extractInner targetDir appId fs items).1 = false) :
    (targetDir ++ [stagingDirName]) ∈ (extractInner targetDir appId fs items).2 ∧
    (∀ q, (targetDir ++ [appId]) <+: q →
      (q ∈ (extractInner targetDir appId fs items).2 ↔ q ∈ fs)) := by
  have hH : ∀ p, TarItem.entry p ∈ items →
      ¬ (targetDir ++ [appId]) <+:
        normAbs (joinUnder (targetDir ++ [stagingDirName]) p) ∧
      ¬ (targetDir ++ [appId]) <+:
        (normAbs (joinUnder (targetDir ++ [stagingDirName]) p)).dropLast := by
    intro p hmem
    obtain ⟨habs, hpref⟩ := hsafe p hmem
    have hjoin : joinUnder (targetDir ++ [stagingDirName]) p =
        (targetDir ++ [stagingDirName]) ++ p.comps := by
      simp [joinUnder, habs]
    rw [hjoin]
    have hpref2 : (targetDir ++ [stagingDirName]) <+:
        normAbs ((targetDir ++ [stagingDirName]) ++ p.comps) :=
      List.isPrefixOf_iff_prefix.mp hpref
    refine ⟨prefix_snoc_incompat (Ne.symm hne) hpref2, ?_⟩
    obtain ⟨t, ht⟩ := hpref2
    rw [← ht]
    cases t with
    | nil =>
      rw [List.append_nil, List.dropLast_concat]
      intro hcon
      have hlen := hcon.length_le
      simp only [List.length_append, List.length_singleton] at hlen
      omega
    | cons c cs =>
      rw [List.dropLast_append_of_ne_nil _ (by simp)]
      exact prefix_snoc_incompat (Ne.symm hne) (List.prefix_append _ _)
  rw [extractInner_snd_of_fail targetDir appId fs items hfail]
  constructor
  · exact runEntries_mono _ _ _ _ (prepareStaging_mem_staging targetDir fs)
  · intro q hq
    rw [runEntries_mem_iff (targetDir ++ [stagingDirName])
      (targetDir ++ [appId]) items (prepareStaging targetDir fs) q hq hH]
    exact prepareStaging_mem_iff targetDir appId fs q hne hq

/-- Witness for the amended C6 theorem on a concrete failing stream over
a prior install. -/
theorem C6_failure_keeps_staging_and_prior_install_witness :
    ((["home", "u", ".local", "share", stagingDirName]) ∈
      (extractInner ["home", "u", ".local", "share"] "com.ex.demo"
        [["home", "u", ".local", "share", "com.ex.demo", "old.txt"]]
        [TarItem.corrupt]).2) :=
  (C6_failure_keeps_staging_and_prior_install
    ["home", "u", ".local", "share"] "com.ex.demo"
    [["home", "u", ".local", "share", "com.ex.demo", "old.txt"]]
    [TarItem.corrupt] (by decide)
    (by intro p hp; simp at hp)
    (by decide)).1

end Lxe
